import Mathlib

/-!
Verification of the jsonschema-infer observation tree and generator.

This file shallowly embeds the Go code of the repository: the value
classification (`getPrimitiveType`), the observation tree (`SchemaNode`,
`ObserveValue`), the schema assembler (`ToSchema`, `getPrimaryType`,
`applyStringPatterns`), and the orchestrator (`Generator` with
`AddParsedSample`, `Generate`, `GetCurrentSchema`, `Load`,
`loadSchemaIntoNode`).

Modelling conventions:
- A decoded Go `interface\x7b\x7d` value is `GoValue`.  `vFloat` models a Go
  `float64` as a rational; the Go integrality test `v == float64(int64(v))`
  becomes denominator-one.  `vOther` models a value whose dynamic type is
  none of `bool`, `float64`, `string`, `[]interface\x7b\x7d`,
  `map[string]interface\x7b\x7d`, `nil` (for example a Go `int`); its string
  payload stands for the dynamic type and value identity of that Go value.
- Go maps (`observedTypes`, `objectProperties`, schema `Properties`) are
  association lists in insertion order; Go map iteration order is arbitrary,
  which is modelled by quantifying over permutations where it matters
  (`getPrimaryType`).
- Go nil slices/maps and empty ones are both the empty list; a nil
  `candidateFormats` (the not-yet-initialised state) is `none`.
- JSON text encoding/decoding is out of scope (black box per the spec);
  `Generate` returns the schema document, `Load` consumes an already
  unmarshalled document.
- Go `!=` on two `interface\x7b\x7d` values is `goEq`; the code only ever
  compares values it classified as string/integer/number/boolean (comparing
  slices or maps would panic in Go), so `goEq` needs no recursive cases.
-/

namespace JsonSchemaInfer

/-- A decoded Go value as produced by `encoding/json` unmarshalling into
`interface\x7b\x7d`, plus `vOther` for non-JSON dynamic types reaching
`AddParsedSample`. -/
inductive GoValue where
  | vBool (b : Bool)
  | vFloat (q : Rat)
  | vStr (s : String)
  | vArr (items : List GoValue)
  | vObj (fields : List (String × GoValue))
  | vNull
  | vOther (payload : String)

/-- Go `value == nil`. -/
def GoValue.isNull : GoValue → Bool
  | .vNull => true
  | _ => false

/-- Go `==` on two `interface\x7b\x7d` values of comparable dynamic type.
The code compares only values classified string/integer/number/boolean, i.e.
`vBool`, `vFloat`, `vStr`, `vOther`; all cross-type comparisons are false in
Go (different dynamic types). -/
def goEq : GoValue → GoValue → Bool
  | .vBool a, .vBool b => a == b
  | .vFloat a, .vFloat b => a == b
  | .vStr a, .vStr b => a == b
  | .vOther a, .vOther b => a == b
  | _, _ => false

mutual

/-- Well-formedness of a decoded value: object keys are distinct at every
level, as is forced in Go by `map[string]interface\x7b\x7d`. -/
def GoValue.WF : GoValue → Bool
  | .vArr items => wfList items
  | .vObj fields => decide ((fields.map Prod.fst).Nodup) && wfFields fields
  | _ => true

def wfList : List GoValue → Bool
  | [] => true
  | v :: rest => v.WF && wfList rest

def wfFields : List (String × GoValue) → Bool
  | [] => true
  | (_, v) :: rest => v.WF && wfFields rest

end

/-- `getPrimitiveType` from the node file: classifies a value into a
primitive type tag; unknown dynamic types fall back to `"string"`. -/
def getPrimitiveType : GoValue → String
  | .vBool _ => "boolean"
  | .vFloat q => if q.den = 1 then "integer" else "number"
  | .vStr _ => "string"
  | .vArr _ => "array"
  | .vObj _ => "object"
  | .vNull => "null"
  | .vOther _ => "string"

/-- `CustomFormat` from the options file: a named format detector. -/
structure CustomFormat where
  name : String
  detector : String → Bool

/-- `PredefinedType` from the options file. -/
inductive PredefinedType where
  | dateTime
  | string
  | boolean
  | number
  | integer
  | array
  | object

/-- The scalar fields of `SchemaNode` (everything except the two kinds of
child links, split off so that the recursive node type below stays a plain
nested inductive with record-update syntax available for the scalar part). -/
structure NodeData where
  observedTypes : List (String × Nat)
  sampleCount : Nat
  stringCount : Nat
  candidateFormats : Option (List String)
  candidateDetectors : List (String → Bool)
  constValue : Option GoValue
  constSet : Bool
  constDiffer : Bool
  firstValue : Option GoValue
  predefinedType : Option PredefinedType

/-- `SchemaNode` from the node file: scalar data plus the single merged
array-item child and the keyed object-property children. -/
inductive SchemaNode where
  | mk (data : NodeData) (arrayItemNode : Option SchemaNode)
      (objectProperties : List (String × SchemaNode))

def SchemaNode.data : SchemaNode → NodeData
  | .mk d _ _ => d

def SchemaNode.arrayItemNode : SchemaNode → Option SchemaNode
  | .mk _ a _ => a

def SchemaNode.objectProperties : SchemaNode → List (String × SchemaNode)
  | .mk _ _ p => p

def SchemaNode.observedTypes (n : SchemaNode) : List (String × Nat) :=
  n.data.observedTypes

def SchemaNode.sampleCount (n : SchemaNode) : Nat :=
  n.data.sampleCount

def SchemaNode.stringCount (n : SchemaNode) : Nat :=
  n.data.stringCount

def SchemaNode.candidateFormats (n : SchemaNode) : Option (List String) :=
  n.data.candidateFormats

def SchemaNode.candidateDetectors (n : SchemaNode) : List (String → Bool) :=
  n.data.candidateDetectors

def SchemaNode.constValue (n : SchemaNode) : Option GoValue :=
  n.data.constValue

def SchemaNode.constSet (n : SchemaNode) : Bool :=
  n.data.constSet

def SchemaNode.constDiffer (n : SchemaNode) : Bool :=
  n.data.constDiffer

def SchemaNode.firstValue (n : SchemaNode) : Option GoValue :=
  n.data.firstValue

def SchemaNode.predefinedType (n : SchemaNode) : Option PredefinedType :=
  n.data.predefinedType

/-- The scalar data of a freshly allocated node. -/
def freshData : NodeData where
  observedTypes := []
  sampleCount := 0
  stringCount := 0
  candidateFormats := none
  candidateDetectors := []
  constValue := none
  constSet := false
  constDiffer := false
  firstValue := none
  predefinedType := none

/-- `NewSchemaNode` from the node file. -/
def NewSchemaNode : SchemaNode := .mk freshData none []

/-- Go `m[k]++` on a `map[string]int`, modelled on the association list. -/
def bumpCount (m : List (String × Nat)) (k : String) : List (String × Nat) :=
  match m with
  | [] => [(k, 1)]
  | (k', c) :: rest => if k' = k then (k', c + 1) :: rest else (k', c) :: bumpCount rest k

/-- Go `m[k]` read on a `map[string]int` (zero when absent). -/
def lookupCount (m : List (String × Nat)) (k : String) : Nat :=
  match m with
  | [] => 0
  | (k', c) :: rest => if k' = k then c else lookupCount rest k

/-- Go `m[k]` read on the property map. -/
def lookupProp (props : List (String × SchemaNode)) (k : String) : Option SchemaNode :=
  match props with
  | [] => none
  | (k', c) :: rest => if k' = k then some c else lookupProp rest k

/-- Go `m[k] = c` write on the property map. -/
def setProp (props : List (String × SchemaNode)) (k : String) (c : SchemaNode) :
    List (String × SchemaNode) :=
  match props with
  | [] => [(k, c)]
  | (k', c') :: rest => if k' = k then (k', c) :: rest else (k', c') :: setProp rest k c

/-- Step 1 of `ObserveValue`: capture the first value as example. -/
def captureExample (value : GoValue) (examplesEnabled : Bool) (d : NodeData) : NodeData :=
  if examplesEnabled && d.sampleCount == 0 then { d with firstValue := some value } else d

/-- The type tags participating in const tracking in `ObserveValue`. -/
def isConstTag (t : String) : Bool :=
  t == "string" || t == "integer" || t == "number" || t == "boolean"

/-- The const-tracking switch of `ObserveValue`: null and complex types are
excluded; a first primitive value becomes the candidate; a differing later
primitive value permanently disqualifies. -/
def trackConst (t : String) (value : GoValue) (d : NodeData) : NodeData :=
  if isConstTag t then
    if !d.constDiffer then
      if !d.constSet then { d with constValue := some value, constSet := true }
      else if !(match d.constValue with | some w => goEq w value | none => false) then
        { d with constDiffer := true, constValue := none }
      else d
    else d
  else d

/-- The string branch of `ObserveValue`: bump `stringCount`, seed the
candidate list from the full detector set if it is still nil, then keep only
the candidates whose detector matches this string (order preserved, the two
parallel slices compacted together). -/
def observeString (str : String) (formats : List CustomFormat) (d : NodeData) : NodeData :=
  let d := { d with stringCount := d.stringCount + 1 }
  let seeded : List String × List (String → Bool) :=
    match d.candidateFormats with
    | none => (formats.map CustomFormat.name, formats.map CustomFormat.detector)
    | some cf => (cf, d.candidateDetectors)
  let survivors := (seeded.1.zip seeded.2).filter (fun p => p.2 str)
  { d with candidateFormats := some (survivors.map Prod.fst),
           candidateDetectors := survivors.map Prod.snd }

mutual

/-- `SchemaNode.ObserveValue` from the node file: updates the node with one
observed value.  The array branch observes every element into the single
merged item child; the object branch creates a child for every key and
recursively observes only the non-null values. -/
def SchemaNode.ObserveValue (n : SchemaNode) (value : GoValue) (examplesEnabled : Bool)
    (formats : List CustomFormat) : SchemaNode :=
  let d := captureExample value examplesEnabled n.data
  let d := { d with sampleCount := d.sampleCount + 1 }
  let d := { d with observedTypes := bumpCount d.observedTypes (getPrimitiveType value) }
  let d := trackConst (getPrimitiveType value) value d
  match value with
  | .vStr s => .mk (observeString s formats d) n.arrayItemNode n.objectProperties
  | .vArr items =>
      .mk d (some (observeItems (n.arrayItemNode.getD NewSchemaNode) items examplesEnabled
        formats)) n.objectProperties
  | .vObj fields =>
      .mk d n.arrayItemNode (observeFields n.objectProperties fields examplesEnabled formats)
  | _ => .mk d n.arrayItemNode n.objectProperties

/-- The per-element loop of the array branch of `ObserveValue`. -/
def observeItems (n : SchemaNode) (items : List GoValue) (examplesEnabled : Bool)
    (formats : List CustomFormat) : SchemaNode :=
  match items with
  | [] => n
  | it :: rest => observeItems (n.ObserveValue it examplesEnabled formats) rest
      examplesEnabled formats

/-- The per-key loop of the object branch of `ObserveValue`: a missing child
is created unconditionally; the value is recursively observed only when it is
not null. -/
def observeFields (props : List (String × SchemaNode)) (fields : List (String × GoValue))
    (examplesEnabled : Bool) (formats : List CustomFormat) : List (String × SchemaNode) :=
  match fields with
  | [] => props
  | (k, v) :: rest =>
      let c := (lookupProp props k).getD NewSchemaNode
      let c := if v.isNull then c else c.ObserveValue v examplesEnabled formats
      observeFields (setProp props k c) rest examplesEnabled formats

end

/-- The output schema document (the Go `Schema` struct).  `type` holds an
arbitrary decoded value exactly like the Go `any` field: the assembler writes
a string or a list of strings into it, `Load` reads whatever was unmarshalled.
Empty string, empty list, `none` and `vNull` stand for the omitted field. -/
inductive Schema where
  | mk (schemaField : String) (type : GoValue) (properties : List (String × Schema))
      (items : Option Schema) (required : List String) (format : String)
      (const : Option GoValue) (exampleValue : Option GoValue)

def Schema.schemaField : Schema → String
  | .mk v _ _ _ _ _ _ _ => v

def Schema.type : Schema → GoValue
  | .mk _ t _ _ _ _ _ _ => t

def Schema.properties : Schema → List (String × Schema)
  | .mk _ _ p _ _ _ _ _ => p

def Schema.items : Schema → Option Schema
  | .mk _ _ _ i _ _ _ _ => i

def Schema.required : Schema → List String
  | .mk _ _ _ _ r _ _ _ => r

def Schema.format : Schema → String
  | .mk _ _ _ _ _ f _ _ => f

def Schema.const : Schema → Option GoValue
  | .mk _ _ _ _ _ _ c _ => c

def Schema.exampleValue : Schema → Option GoValue
  | .mk _ _ _ _ _ _ _ e => e

/-- `sort.Strings` from the Go standard library: the required list and the
multi-type list sorted into lexicographic order. -/
def sortStrings (l : List String) : List String :=
  l.insertionSort (· ≤ ·)

/-- `getPrimaryType` body over one concrete iteration order of the
`observedTypes` map: the first tag whose count strictly exceeds the running
maximum wins (ties keep the earlier tag of that order). -/
def getPrimaryTypeOn (l : List (String × Nat)) : String :=
  (l.foldl (fun acc p => if p.2 > acc.2 then p else acc) ("", 0)).1

/-- `SchemaNode.getPrimaryType` from the node file, evaluated on the stored
insertion order of the map (Go iterates the map in arbitrary order; other
orders are the permutations of this list). -/
def SchemaNode.getPrimaryType (n : SchemaNode) : String :=
  getPrimaryTypeOn n.observedTypes

/-- `SchemaNode.applyStringPatterns` from the node file, returning the value
it writes into `schema.Format` (empty string = field left unset). -/
def SchemaNode.applyStringPatterns (n : SchemaNode) : String :=
  if n.stringCount == 0 then ""
  else match n.candidateFormats with
    | some (f :: _) => f
    | _ => ""

/-- The `type` value the assembler emits before the primary-type switch:
with more than one observed tag, the sorted non-null tags (scalar when one
remains); otherwise the primary type as a scalar. -/
def emitType (observedTypes : List (String × Nat)) (primary : String) : GoValue :=
  if observedTypes.length > 1 then
    match sortStrings ((observedTypes.map Prod.fst).filter (fun t => t ≠ "null")) with
    | [t] => .vStr t
    | [] => .vNull
    | ts => .vArr (ts.map .vStr)
  else .vStr primary

mutual

/-- `SchemaNode.ToSchema` from the node file: assemble the schema for one
node.  The predefined-type short circuit (`applyPredefinedType` in the
source) is inlined as the first match so that the recursion stays
structural. -/
def SchemaNode.ToSchema (n : SchemaNode) : Schema :=
  match n with
  | .mk d a p =>
    match d.predefinedType with
    | some pt =>
      -- applyPredefinedType from the node file
      match pt with
      | .dateTime => .mk "" (.vStr "string") [] none [] "date-time" none none
      | .string => .mk "" (.vStr "string") [] none [] "" none none
      | .boolean => .mk "" (.vStr "boolean") [] none [] "" none none
      | .number => .mk "" (.vStr "number") [] none [] "" none none
      | .integer => .mk "" (.vStr "integer") [] none [] "" none none
      | .array => .mk "" (.vStr "array") [] (toSchemaOpt a) [] "" none none
      | .object =>
          .mk "" (.vStr "object")
            (if p.length > 0 then toSchemaProps p else []) none [] "" none none
    | none =>
      let primary := getPrimaryTypeOn d.observedTypes
      let baseType := emitType d.observedTypes primary
      let constField := if d.constSet && !d.constDiffer then d.constValue else none
      let exampleField :=
        match d.firstValue with
        | some v => if v.isNull then none else some v
        | none => none
      if primary = "string" then
        let fmt :=
          if d.stringCount == 0 then ""
          else match d.candidateFormats with
            | some (f :: _) => f
            | _ => ""
        .mk "" baseType [] none [] fmt constField exampleField
      else if primary = "array" then
        .mk "" (.vStr "array") [] (toSchemaOpt a) [] "" constField exampleField
      else if primary = "object" then
        if p.length > 0 then
          .mk "" (.vStr "object") (toSchemaProps p) none
            (sortStrings ((p.filter
              (fun q => q.2.sampleCount == d.sampleCount)).map Prod.fst))
            "" constField exampleField
        else .mk "" (.vStr "object") [] none [] "" constField exampleField
      else .mk "" baseType [] none [] "" constField exampleField

/-- `Items` assembly: recurse when the array-item child exists. -/
def toSchemaOpt : Option SchemaNode → Option Schema
  | none => none
  | some n => some n.ToSchema

/-- `Properties` assembly: recurse into every property child. -/
def toSchemaProps : List (String × SchemaNode) → List (String × Schema)
  | [] => []
  | (k, c) :: rest => (k, c.ToSchema) :: toSchemaProps rest

end

/-- `Generator` from the generator file.  The lock serializes every call, so
each operation is a plain function of the state; the JSON indentation setting
only affects the out-of-scope text encoder and is omitted. -/
structure Generator where
  rootNode : SchemaNode
  predefined : List (String × PredefinedType)
  customFormats : List CustomFormat
  sampleCount : Nat
  maxSamples : Nat
  currentSchema : Option Schema
  schemaVersion : String
  examplesEnabled : Bool

/-- `New` from the generator file, taking the format detector set as a
parameter (the built-in detectors are regex/RFC3339 predicates, out of scope
here; options may replace or extend the set before use). -/
def mkGenerator (formats : List CustomFormat) : Generator where
  rootNode := NewSchemaNode
  predefined := []
  customFormats := formats
  sampleCount := 0
  maxSamples := 0
  currentSchema := none
  schemaVersion := "http://json-schema.org/draft-07/schema#"
  examplesEnabled := false

/-- `Generator.applyPredefinedTypes`: re-annotate the direct children of the
root whose key has a configured predefined type. -/
def Generator.applyPredefinedTypes (pre : List (String × PredefinedType))
    (root : SchemaNode) : SchemaNode :=
  pre.foldl
    (fun r q =>
      match lookupProp r.objectProperties q.1 with
      | some c =>
          .mk r.data r.arrayItemNode
            (setProp r.objectProperties q.1
              (.mk { c.data with predefinedType := some q.2 } c.arrayItemNode
                c.objectProperties))
      | none => r)
    root

/-- `Generator.AddParsedSample`: no-op at the sample cap, otherwise count the
sample, observe it at the root, re-apply predefined types, and invalidate the
cached schema. -/
def Generator.AddParsedSample (g : Generator) (data : GoValue) : Generator :=
  if g.maxSamples > 0 && g.sampleCount ≥ g.maxSamples then g
  else
    { g with
      sampleCount := g.sampleCount + 1
      rootNode := Generator.applyPredefinedTypes g.predefined
        (g.rootNode.ObserveValue data g.examplesEnabled g.customFormats)
      currentSchema := none }

/-- `Generator.buildCurrentSchema`: assemble from the root and attach the
schema version. -/
def Generator.buildCurrentSchema (g : Generator) : Schema :=
  match g.rootNode.ToSchema with
  | .mk sf t p i r f c e =>
      if sf = "" then .mk g.schemaVersion t p i r f c e
      else .mk sf t p i r f c e

/-- `Generator.Generate`: the no-samples guard, then the (lazily rebuilt)
cached document.  Text encoding is out of scope, so the document itself is
returned. -/
def Generator.Generate (g : Generator) : Except String Schema × Generator :=
  if g.sampleCount == 0 then (.error "no samples added", g)
  else
    match g.currentSchema with
    | some s => (.ok s, g)
    | none =>
        let s := g.buildCurrentSchema
        (.ok s, { g with currentSchema := some s })

/-- `Generator.GetCurrentSchema`: returns the cached schema, building and
caching it first when the cache is empty.  There is no sample-count guard in
the source. -/
def Generator.GetCurrentSchema (g : Generator) : Schema × Generator :=
  match g.currentSchema with
  | some s => (s, g)
  | none =>
      let s := g.buildCurrentSchema
      (s, { g with currentSchema := some s })

/-- The scan inside the list case of the type switch of `loadSchemaIntoNode`:
the first string element other than `"null"` (empty when there is none). -/
def firstNonNullString : List GoValue → String
  | [] => ""
  | .vStr s :: rest => if s ≠ "null" then s else firstNonNullString rest
  | _ :: rest => firstNonNullString rest

/-- The type switch at the top of `loadSchemaIntoNode`: a string is taken as
is; a list is scanned with `firstNonNullString`; every other dynamic type is
the `unsupported type format` error. -/
def loadTypeStr : GoValue → Except String String
  | .vStr s => .ok s
  | .vArr l => .ok (firstNonNullString l)
  | _ => .error "unsupported type format"

mutual

/-- `Generator.loadSchemaIntoNode`: reconstruct a node from a loaded schema
document.  The Go function fills a freshly allocated node in place; here the
pair returned is that node together with the error, so that the partly
filled node of a failing call is still observable (the array item child is
linked before its recursive load, property children only after theirs
succeeded). -/
def loadSchemaIntoNode (schema : Schema) (parentSampleCount : Nat) :
    SchemaNode × Option String :=
  match schema with
  | .mk _ t props items required format _ _ =>
    match loadTypeStr t with
    | .error e => (NewSchemaNode, some e)
    | .ok typeStr =>
      let d := { freshData with
        observedTypes := [(typeStr, parentSampleCount)]
        sampleCount := parentSampleCount }
      if typeStr = "array" then
        match items with
        | some idoc =>
            match loadSchemaIntoNode idoc parentSampleCount with
            | (child, e) => (.mk d (some child) [], e)
        | none => (.mk d none [], none)
      else if typeStr = "object" then
        match loadProps props parentSampleCount required with
        | (cs, e) => (.mk d none cs, e)
      else if typeStr = "string" && format ≠ "" then
        (.mk { d with
          candidateFormats := some [format]
          candidateDetectors := [fun _ => true]
          stringCount := parentSampleCount } none [], none)
      else (.mk d none [], none)

/-- The property loop of `loadSchemaIntoNode`: a required child keeps the
parent sample count, a non-required one gets it minus one clamped to one; on
the first failing child the loop stops, earlier children kept, the failing
one not inserted. -/
def loadProps (props : List (String × Schema)) (parentSampleCount : Nat)
    (required : List String) : List (String × SchemaNode) × Option String :=
  match props with
  | [] => ([], none)
  | (k, pd) :: rest =>
      let childSampleCount :=
        if required.contains k then parentSampleCount
        else max 1 (parentSampleCount - 1)
      match loadSchemaIntoNode pd childSampleCount with
      | (_, some e) => ([], some e)
      | (c, none) =>
          match loadProps rest parentSampleCount required with
          | (cs, e) => ((k, c) :: cs, e)

end

/-- Go `schema.Type != "object"` (an interface compared against a string
constant is true exactly when it holds an equal string). -/
def isTypeObject : GoValue → Bool
  | .vStr s => s == "object"
  | _ => false

/-- `Generator.Load` on an already unmarshalled document (JSON decoding is
the out-of-scope black box; a text-level decode error leaves the generator
untouched before this function even runs).  A non-`"object"` root type fails
before any mutation; otherwise the tree and cache are reset first and the
reconstruction may then fail midway, in which case the reset, partly loaded
root is kept and the sample counter is left at its old value. -/
def Generator.Load (g : Generator) (schema : Schema) : Generator × Option String :=
  if isTypeObject schema.type then
    match loadSchemaIntoNode schema 1 with
    | (root, some e) => ({ g with rootNode := root, currentSchema := none }, some e)
    | (root, none) =>
        ({ g with rootNode := root, currentSchema := some schema, sampleCount := 1 }, none)
  else (g, some "only object schemas can be loaded")

/-- A whole ingestion run at node level: observe the values one after the
other (the per-sample path of `AddParsedSample` restricted to the tree). -/
def observeList (n : SchemaNode) (vs : List GoValue) (examplesEnabled : Bool)
    (formats : List CustomFormat) : SchemaNode :=
  match vs with
  | [] => n
  | v :: rest => observeList (n.ObserveValue v examplesEnabled formats) rest
      examplesEnabled formats

/-- The observations of a sequence that participate in const tracking: the
values classified string/integer/number/boolean (null, arrays and objects
are skipped by the tracking switch). -/
def primObs (vs : List GoValue) : List GoValue :=
  vs.filter (fun v => isConstTag (getPrimitiveType v))

/-- The three const-tracking fields of a node, bundled for stating how one
observation transforms them. -/
structure ConstState where
  set : Bool
  differ : Bool
  value : Option GoValue

def SchemaNode.constState (n : SchemaNode) : ConstState :=
  ⟨n.constSet, n.constDiffer, n.constValue⟩

/-- The pure const-state transition performed by one `ObserveValue` call
(the `trackConst` switch seen only through the three const fields). -/
def constStep (v : GoValue) (st : ConstState) : ConstState :=
  if isConstTag (getPrimitiveType v) then
    if !st.differ then
      if !st.set then ⟨true, st.differ, some v⟩
      else if !(match st.value with | some w => goEq w v | none => false) then
        ⟨st.set, true, none⟩
      else st
    else st
  else st

/-- The parent/child sample-count invariant along `objectProperties` edges,
everywhere in a tree: every property child has at most the sample count of
its parent, recursively, also below the array-item child. -/
inductive Inv : SchemaNode → Prop where
  | mk (n : SchemaNode)
      (hcount : ∀ p ∈ n.objectProperties, p.2.sampleCount ≤ n.sampleCount)
      (hprops : ∀ p ∈ n.objectProperties, Inv p.2)
      (harr : ∀ c, n.arrayItemNode = some c → Inv c) : Inv n

/-! ## Projection lemmas -/

@[simp] theorem data_mk (d : NodeData) (a : Option SchemaNode)
    (p : List (String × SchemaNode)) : (SchemaNode.mk d a p).data = d := rfl

@[simp] theorem arrayItemNode_mk (d : NodeData) (a : Option SchemaNode)
    (p : List (String × SchemaNode)) : (SchemaNode.mk d a p).arrayItemNode = a := rfl

@[simp] theorem objectProperties_mk (d : NodeData) (a : Option SchemaNode)
    (p : List (String × SchemaNode)) : (SchemaNode.mk d a p).objectProperties = p := rfl

@[simp] theorem captureExample_sampleCount (v : GoValue) (e : Bool) (d : NodeData) :
    (captureExample v e d).sampleCount = d.sampleCount := by
  simp only [captureExample]; split <;> rfl

@[simp] theorem captureExample_observedTypes (v : GoValue) (e : Bool) (d : NodeData) :
    (captureExample v e d).observedTypes = d.observedTypes := by
  simp only [captureExample]; split <;> rfl

@[simp] theorem captureExample_stringCount (v : GoValue) (e : Bool) (d : NodeData) :
    (captureExample v e d).stringCount = d.stringCount := by
  simp only [captureExample]; split <;> rfl

@[simp] theorem captureExample_candidateFormats (v : GoValue) (e : Bool) (d : NodeData) :
    (captureExample v e d).candidateFormats = d.candidateFormats := by
  simp only [captureExample]; split <;> rfl

@[simp] theorem captureExample_candidateDetectors (v : GoValue) (e : Bool) (d : NodeData) :
    (captureExample v e d).candidateDetectors = d.candidateDetectors := by
  simp only [captureExample]; split <;> rfl

@[simp] theorem captureExample_constSet (v : GoValue) (e : Bool) (d : NodeData) :
    (captureExample v e d).constSet = d.constSet := by
  simp only [captureExample]; split <;> rfl

@[simp] theorem captureExample_constDiffer (v : GoValue) (e : Bool) (d : NodeData) :
    (captureExample v e d).constDiffer = d.constDiffer := by
  simp only [captureExample]; split <;> rfl

@[simp] theorem captureExample_constValue (v : GoValue) (e : Bool) (d : NodeData) :
    (captureExample v e d).constValue = d.constValue := by
  simp only [captureExample]; split <;> rfl

@[simp] theorem captureExample_predefinedType (v : GoValue) (e : Bool) (d : NodeData) :
    (captureExample v e d).predefinedType = d.predefinedType := by
  simp only [captureExample]; split <;> rfl

@[simp] theorem trackConst_sampleCount (t : String) (v : GoValue) (d : NodeData) :
    (trackConst t v d).sampleCount = d.sampleCount := by
  simp only [trackConst]; repeat' split
  all_goals rfl

@[simp] theorem trackConst_observedTypes (t : String) (v : GoValue) (d : NodeData) :
    (trackConst t v d).observedTypes = d.observedTypes := by
  simp only [trackConst]; repeat' split
  all_goals rfl

@[simp] theorem trackConst_stringCount (t : String) (v : GoValue) (d : NodeData) :
    (trackConst t v d).stringCount = d.stringCount := by
  simp only [trackConst]; repeat' split
  all_goals rfl

@[simp] theorem trackConst_candidateFormats (t : String) (v : GoValue) (d : NodeData) :
    (trackConst t v d).candidateFormats = d.candidateFormats := by
  simp only [trackConst]; repeat' split
  all_goals rfl

@[simp] theorem trackConst_candidateDetectors (t : String) (v : GoValue) (d : NodeData) :
    (trackConst t v d).candidateDetectors = d.candidateDetectors := by
  simp only [trackConst]; repeat' split
  all_goals rfl

@[simp] theorem trackConst_predefinedType (t : String) (v : GoValue) (d : NodeData) :
    (trackConst t v d).predefinedType = d.predefinedType := by
  simp only [trackConst]; repeat' split
  all_goals rfl

@[simp] theorem observeString_sampleCount (s : String) (f : List CustomFormat) (d : NodeData) :
    (observeString s f d).sampleCount = d.sampleCount := rfl

@[simp] theorem observeString_observedTypes (s : String) (f : List CustomFormat) (d : NodeData) :
    (observeString s f d).observedTypes = d.observedTypes := rfl

@[simp] theorem observeString_constSet (s : String) (f : List CustomFormat) (d : NodeData) :
    (observeString s f d).constSet = d.constSet := rfl

@[simp] theorem observeString_constDiffer (s : String) (f : List CustomFormat) (d : NodeData) :
    (observeString s f d).constDiffer = d.constDiffer := rfl

@[simp] theorem observeString_constValue (s : String) (f : List CustomFormat) (d : NodeData) :
    (observeString s f d).constValue = d.constValue := rfl

@[simp] theorem observeString_predefinedType (s : String) (f : List CustomFormat) (d : NodeData) :
    (observeString s f d).predefinedType = d.predefinedType := rfl

@[simp] theorem observeString_stringCount (s : String) (f : List CustomFormat) (d : NodeData) :
    (observeString s f d).stringCount = d.stringCount + 1 := rfl

/-! ## One-step behaviour of `ObserveValue` on each projection -/

@[simp] theorem ObserveValue_sampleCount (n : SchemaNode) (v : GoValue) (e : Bool)
    (f : List CustomFormat) : (n.ObserveValue v e f).sampleCount = n.sampleCount + 1 := by
  cases v <;> simp [SchemaNode.ObserveValue, SchemaNode.sampleCount]

@[simp] theorem ObserveValue_observedTypes (n : SchemaNode) (v : GoValue) (e : Bool)
    (f : List CustomFormat) :
    (n.ObserveValue v e f).observedTypes = bumpCount n.observedTypes (getPrimitiveType v) := by
  cases v <;> simp [SchemaNode.ObserveValue, SchemaNode.observedTypes]

@[simp] theorem ObserveValue_predefinedType (n : SchemaNode) (v : GoValue) (e : Bool)
    (f : List CustomFormat) :
    (n.ObserveValue v e f).predefinedType = n.predefinedType := by
  cases v <;> simp [SchemaNode.ObserveValue, SchemaNode.predefinedType]

theorem ObserveValue_objectProperties (n : SchemaNode) (v : GoValue) (e : Bool)
    (f : List CustomFormat) :
    (n.ObserveValue v e f).objectProperties =
      match v with
      | .vObj fields => observeFields n.objectProperties fields e f
      | _ => n.objectProperties := by
  cases v <;> rfl

theorem ObserveValue_arrayItemNode (n : SchemaNode) (v : GoValue) (e : Bool)
    (f : List CustomFormat) :
    (n.ObserveValue v e f).arrayItemNode =
      match v with
      | .vArr items => some (observeItems (n.arrayItemNode.getD NewSchemaNode) items e f)
      | _ => n.arrayItemNode := by
  cases v <;> rfl

theorem ObserveValue_stringCount (n : SchemaNode) (v : GoValue) (e : Bool)
    (f : List CustomFormat) :
    (n.ObserveValue v e f).stringCount =
      match v with
      | .vStr _ => n.stringCount + 1
      | _ => n.stringCount := by
  cases v <;> simp [SchemaNode.ObserveValue, SchemaNode.stringCount]

theorem ObserveValue_candidateFormats_ne (n : SchemaNode) (v : GoValue) (e : Bool)
    (f : List CustomFormat) (h : ∀ s, v ≠ .vStr s) :
    (n.ObserveValue v e f).candidateFormats = n.candidateFormats := by
  cases v <;> simp [SchemaNode.ObserveValue, SchemaNode.candidateFormats]
  exact absurd rfl (h _)

theorem ObserveValue_candidateDetectors_ne (n : SchemaNode) (v : GoValue) (e : Bool)
    (f : List CustomFormat) (h : ∀ s, v ≠ .vStr s) :
    (n.ObserveValue v e f).candidateDetectors = n.candidateDetectors := by
  cases v <;> simp [SchemaNode.ObserveValue, SchemaNode.candidateDetectors]
  exact absurd rfl (h _)

/-- First string observed on a node whose candidate list is still nil: the
list is seeded from the full detector set and immediately filtered by this
string, names in detector-set order. -/
theorem candidateFormats_first_string (n : SchemaNode) (s : String) (e : Bool)
    (f : List CustomFormat) (h : n.candidateFormats = none) :
    (n.ObserveValue (.vStr s) e f).candidateFormats =
      some ((f.filter (fun cf => cf.detector s)).map CustomFormat.name) := by
  simp only [SchemaNode.candidateFormats] at h
  simp only [SchemaNode.ObserveValue, observeString, SchemaNode.candidateFormats, data_mk,
    trackConst_candidateFormats, captureExample_candidateFormats, trackConst_candidateDetectors,
    captureExample_candidateDetectors, h]
  induction f with
  | nil => rfl
  | cons cf rest ih =>
      simp only [List.map_cons, List.zip_cons_cons, List.filter_cons] at ih ⊢
      by_cases hd : cf.detector s
      · simp [hd] at ih ⊢
        exact ih
      · simp [hd] at ih ⊢
        exact ih

/-- A later string observed on a node with an initialised candidate list:
the two parallel slices are filtered in place by this string. -/
theorem candidateFormats_next_string (n : SchemaNode) (s : String) (e : Bool)
    (f : List CustomFormat) (cf : List String) (h : n.candidateFormats = some cf) :
    (n.ObserveValue (.vStr s) e f).candidateFormats =
      some (((cf.zip n.candidateDetectors).filter (fun p => p.2 s)).map Prod.fst) ∧
    (n.ObserveValue (.vStr s) e f).candidateDetectors =
      ((cf.zip n.candidateDetectors).filter (fun p => p.2 s)).map Prod.snd := by
  simp only [SchemaNode.candidateFormats] at h
  constructor <;>
    simp only [SchemaNode.ObserveValue, observeString, SchemaNode.candidateFormats,
      SchemaNode.candidateDetectors, data_mk, trackConst_candidateFormats,
      trackConst_candidateDetectors, captureExample_candidateFormats,
      captureExample_candidateDetectors, h]

/-! ## Const tracking as a pure state transition -/

theorem trackConst_as_constStep (t : String) (v : GoValue) (d : NodeData)
    (ht : t = getPrimitiveType v) :
    ConstState.mk (trackConst t v d).constSet (trackConst t v d).constDiffer
      (trackConst t v d).constValue = constStep v ⟨d.constSet, d.constDiffer, d.constValue⟩ := by
  subst ht
  simp only [trackConst, constStep]
  split_ifs <;> simp_all

theorem ObserveValue_constState (n : SchemaNode) (v : GoValue) (e : Bool)
    (f : List CustomFormat) :
    (n.ObserveValue v e f).constState = constStep v n.constState := by
  have key : ∀ d : NodeData,
      ConstState.mk (trackConst (getPrimitiveType v) v d).constSet
        (trackConst (getPrimitiveType v) v d).constDiffer
        (trackConst (getPrimitiveType v) v d).constValue
        = constStep v ⟨d.constSet, d.constDiffer, d.constValue⟩ :=
    fun d => trackConst_as_constStep _ v d rfl
  cases v <;>
    simp only [SchemaNode.ObserveValue, SchemaNode.constState, SchemaNode.constSet,
      SchemaNode.constDiffer, SchemaNode.constValue, data_mk, observeString_constSet,
      observeString_constDiffer, observeString_constValue] <;>
    rw [key] <;> simp

theorem constState_observeList (n : SchemaNode) (vs : List GoValue) (e : Bool)
    (f : List CustomFormat) :
    (observeList n vs e f).constState = vs.foldl (fun st v => constStep v st) n.constState := by
  induction vs generalizing n with
  | nil => rfl
  | cons v rest ih =>
      simp only [observeList, List.foldl_cons]
      rw [ih, ObserveValue_constState]

/-! ## List helpers -/

theorem map_fst_zip_sublist {α β : Type} (l1 : List α) (l2 : List β) :
    ((l1.zip l2).map Prod.fst).Sublist l1 := by
  induction l1 generalizing l2 with
  | nil => simp
  | cons a rest ih =>
      cases l2 with
      | nil => simp
      | cons b rest2 => simpa using (ih rest2).cons₂ a

theorem observeList_append (n : SchemaNode) (vs ws : List GoValue) (e : Bool)
    (f : List CustomFormat) :
    observeList n (vs ++ ws) e f = observeList (observeList n vs e f) ws e f := by
  induction vs generalizing n with
  | nil => rfl
  | cons v rest ih =>
      simp only [List.cons_append, observeList]
      exact ih _

/-! ## The sample-count invariant along object-property edges -/

theorem Inv_fresh : Inv NewSchemaNode := by
  refine Inv.mk _ ?_ ?_ ?_ <;> simp [NewSchemaNode]

theorem Inv_congr (n m : SchemaNode) (hp : m.objectProperties = n.objectProperties)
    (ha : m.arrayItemNode = n.arrayItemNode) (hs : n.sampleCount ≤ m.sampleCount)
    (h : Inv n) : Inv m := by
  cases h with
  | mk _ hcount hprops harr =>
      exact Inv.mk m (fun p hq => le_trans (hcount p (hp ▸ hq)) hs)
        (fun p hq => hprops p (hp ▸ hq)) (fun c hc => harr c (ha ▸ hc))

theorem Inv_getD_arrayItem (n : SchemaNode) (h : Inv n) :
    Inv (n.arrayItemNode.getD NewSchemaNode) := by
  cases h with
  | mk _ hcount hprops harr =>
      cases ha : n.arrayItemNode with
      | none => simpa using Inv_fresh
      | some c => simpa using harr c ha

theorem lookupProp_mem (props : List (String × SchemaNode)) (k : String) (c : SchemaNode)
    (h : lookupProp props k = some c) : (k, c) ∈ props := by
  induction props with
  | nil => simp [lookupProp] at h
  | cons q rest ih =>
      obtain ⟨k', c'⟩ := q
      by_cases hk : k' = k
      · simp only [lookupProp, if_pos hk, Option.some.injEq] at h
        subst hk; subst h
        exact List.mem_cons_self _ _
      · simp only [lookupProp, if_neg hk] at h
        exact List.mem_cons_of_mem _ (ih h)

theorem mem_setProp (props : List (String × SchemaNode)) (k : String) (c : SchemaNode) :
    ∀ p ∈ setProp props k c, (p.1 = k ∧ p.2 = c) ∨ p ∈ props := by
  induction props with
  | nil =>
      intro p hp
      simp only [setProp, List.mem_singleton] at hp
      subst hp; exact Or.inl ⟨rfl, rfl⟩
  | cons q rest ih =>
      intro p hp
      obtain ⟨k', c'⟩ := q
      by_cases hk : k' = k
      · simp only [setProp, if_pos hk] at hp
        rcases List.mem_cons.mp hp with h1 | h2
        · subst h1; exact Or.inl ⟨hk, rfl⟩
        · exact Or.inr (List.mem_cons_of_mem _ h2)
      · simp only [setProp, if_neg hk] at hp
        rcases List.mem_cons.mp hp with h1 | h2
        · subst h1; exact Or.inr (List.mem_cons_self _ _)
        · rcases ih p h2 with h | h
          · exact Or.inl h
          · exact Or.inr (List.mem_cons_of_mem _ h)

theorem Inv_observe_scalar (n : SchemaNode) (v : GoValue) (e : Bool) (f : List CustomFormat)
    (hobj : (n.ObserveValue v e f).objectProperties = n.objectProperties)
    (ha : (n.ObserveValue v e f).arrayItemNode = n.arrayItemNode)
    (h : Inv n) : Inv (n.ObserveValue v e f) :=
  Inv_congr n _ hobj ha (by simp) h

mutual

theorem Inv_ObserveValue (e : Bool) (f : List CustomFormat) :
    ∀ (v : GoValue) (n : SchemaNode), GoValue.WF v = true → Inv n →
      Inv (n.ObserveValue v e f)
  | .vBool b, n, _, h => Inv_observe_scalar n _ e f
      (by rw [ObserveValue_objectProperties]) (by rw [ObserveValue_arrayItemNode]) h
  | .vFloat q, n, _, h => Inv_observe_scalar n _ e f
      (by rw [ObserveValue_objectProperties]) (by rw [ObserveValue_arrayItemNode]) h
  | .vStr s, n, _, h => Inv_observe_scalar n _ e f
      (by rw [ObserveValue_objectProperties]) (by rw [ObserveValue_arrayItemNode]) h
  | .vNull, n, _, h => Inv_observe_scalar n _ e f
      (by rw [ObserveValue_objectProperties]) (by rw [ObserveValue_arrayItemNode]) h
  | .vOther t, n, _, h => Inv_observe_scalar n _ e f
      (by rw [ObserveValue_objectProperties]) (by rw [ObserveValue_arrayItemNode]) h
  | .vArr items, n, hwf, h => by
      have hIn : Inv (n.arrayItemNode.getD NewSchemaNode) := Inv_getD_arrayItem n h
      have hItems : Inv (observeItems (n.arrayItemNode.getD NewSchemaNode) items e f) :=
        Inv_observeItems e f items _ (by simpa [GoValue.WF] using hwf) hIn
      cases h with
      | mk _ hcount hprops harr =>
          refine Inv.mk _ ?_ ?_ ?_
          · intro p hp
            simp only [ObserveValue_objectProperties] at hp
            exact le_trans (hcount p hp) (by simp)
          · intro p hp
            simp only [ObserveValue_objectProperties] at hp
            exact hprops p hp
          · intro c hc
            simp only [ObserveValue_arrayItemNode, Option.some.injEq] at hc
            exact hc ▸ hItems
  | .vObj fields, n, hwf, h => by
      simp only [GoValue.WF, Bool.and_eq_true, decide_eq_true_eq] at hwf
      obtain ⟨hnd, hwff⟩ := hwf
      cases h with
      | mk _ hcount hprops harr =>
          have key := Inv_observeFields e f fields n.objectProperties n.sampleCount hwff hnd
            hprops (fun p hp => le_trans (hcount p hp) (Nat.le_succ _))
            (fun p hp _ => hcount p hp)
          refine Inv.mk _ ?_ ?_ ?_
          · intro p hp
            simp only [ObserveValue_objectProperties] at hp
            rw [ObserveValue_sampleCount]
            exact (key p hp).2
          · intro p hp
            simp only [ObserveValue_objectProperties] at hp
            exact (key p hp).1
          · intro c hc
            simp only [ObserveValue_arrayItemNode] at hc
            exact harr c hc

theorem Inv_observeItems (e : Bool) (f : List CustomFormat) :
    ∀ (items : List GoValue) (n : SchemaNode),
      wfList items = true → Inv n → Inv (observeItems n items e f)
  | [], _, _, h => h
  | it :: rest, n, hwf, h => by
      simp only [wfList, Bool.and_eq_true] at hwf
      exact Inv_observeItems e f rest _ hwf.2 (Inv_ObserveValue e f it n hwf.1 h)

theorem Inv_observeFields (e : Bool) (f : List CustomFormat) :
    ∀ (fields : List (String × GoValue)) (props : List (String × SchemaNode)) (S : Nat),
      wfFields fields = true → (fields.map Prod.fst).Nodup →
      (∀ p ∈ props, Inv p.2) →
      (∀ p ∈ props, p.2.sampleCount ≤ S + 1) →
      (∀ p ∈ props, p.1 ∈ fields.map Prod.fst → p.2.sampleCount ≤ S) →
      ∀ p ∈ observeFields props fields e f, Inv p.2 ∧ p.2.sampleCount ≤ S + 1
  | [], props, S, _, _, h1, h2, _ => fun p hp => ⟨h1 p hp, h2 p hp⟩
  | (k, v) :: rest, props, S, hwf, hnd, h1, h2, h3 => by
      simp only [wfFields, Bool.and_eq_true] at hwf
      obtain ⟨hvwf, hrest⟩ := hwf
      simp only [List.map_cons, List.nodup_cons] at hnd
      obtain ⟨hknotin, hndrest⟩ := hnd
      have hc_le : ((lookupProp props k).getD NewSchemaNode).sampleCount ≤ S := by
        cases hl : lookupProp props k with
        | none => simp [NewSchemaNode, SchemaNode.sampleCount, freshData]
        | some c => simpa using h3 (k, c) (lookupProp_mem props k c hl) (by simp)
      have hc_inv : Inv ((lookupProp props k).getD NewSchemaNode) := by
        cases hl : lookupProp props k with
        | none => simpa using Inv_fresh
        | some c => simpa using h1 (k, c) (lookupProp_mem props k c hl)
      have hstep : Inv (if v.isNull then (lookupProp props k).getD NewSchemaNode
          else ((lookupProp props k).getD NewSchemaNode).ObserveValue v e f) ∧
          (if v.isNull then (lookupProp props k).getD NewSchemaNode
          else ((lookupProp props k).getD NewSchemaNode).ObserveValue v e f).sampleCount
            ≤ S + 1 := by
        by_cases hq : v.isNull
        · simp only [hq, if_pos]
          exact ⟨hc_inv, le_trans hc_le (Nat.le_succ _)⟩
        · simp only [hq, if_neg, Bool.false_eq_true, not_false_eq_true]
          refine ⟨Inv_ObserveValue e f v _ hvwf hc_inv, ?_⟩
          rw [ObserveValue_sampleCount]
          omega
      refine Inv_observeFields e f rest
        (setProp props k (if v.isNull then (lookupProp props k).getD NewSchemaNode
          else ((lookupProp props k).getD NewSchemaNode).ObserveValue v e f)) S
        hrest hndrest ?_ ?_ ?_
      · intro p hp
        rcases mem_setProp _ _ _ p hp with hnew | hold
        · rw [hnew.2]; exact hstep.1
        · exact h1 p hold
      · intro p hp
        rcases mem_setProp _ _ _ p hp with hnew | hold
        · rw [hnew.2]; exact hstep.2
        · exact h2 p hold
      · intro p hp hkey
        rcases mem_setProp _ _ _ p hp with hnew | hold
        · exact absurd (hnew.1 ▸ hkey) hknotin
        · exact h3 p hold (List.mem_cons_of_mem _ hkey)

end

/-! ## Schema projections and assembly lemmas -/

@[simp] theorem schemaField_mk (a : String) (t : GoValue) (p : List (String × Schema))
    (i : Option Schema) (r : List String) (fo : String) (c eo : Option GoValue) :
    (Schema.mk a t p i r fo c eo).schemaField = a := rfl

@[simp] theorem type_mk (a : String) (t : GoValue) (p : List (String × Schema))
    (i : Option Schema) (r : List String) (fo : String) (c eo : Option GoValue) :
    (Schema.mk a t p i r fo c eo).type = t := rfl

@[simp] theorem properties_mk (a : String) (t : GoValue) (p : List (String × Schema))
    (i : Option Schema) (r : List String) (fo : String) (c eo : Option GoValue) :
    (Schema.mk a t p i r fo c eo).properties = p := rfl

@[simp] theorem items_mk (a : String) (t : GoValue) (p : List (String × Schema))
    (i : Option Schema) (r : List String) (fo : String) (c eo : Option GoValue) :
    (Schema.mk a t p i r fo c eo).items = i := rfl

@[simp] theorem required_mk (a : String) (t : GoValue) (p : List (String × Schema))
    (i : Option Schema) (r : List String) (fo : String) (c eo : Option GoValue) :
    (Schema.mk a t p i r fo c eo).required = r := rfl

@[simp] theorem format_mk (a : String) (t : GoValue) (p : List (String × Schema))
    (i : Option Schema) (r : List String) (fo : String) (c eo : Option GoValue) :
    (Schema.mk a t p i r fo c eo).format = fo := rfl

@[simp] theorem const_mk (a : String) (t : GoValue) (p : List (String × Schema))
    (i : Option Schema) (r : List String) (fo : String) (c eo : Option GoValue) :
    (Schema.mk a t p i r fo c eo).const = c := rfl

@[simp] theorem exampleValue_mk (a : String) (t : GoValue) (p : List (String × Schema))
    (i : Option Schema) (r : List String) (fo : String) (c eo : Option GoValue) :
    (Schema.mk a t p i r fo c eo).exampleValue = eo := rfl

theorem mem_sortStrings (l : List String) (k : String) : k ∈ sortStrings l ↔ k ∈ l :=
  (List.perm_insertionSort _ l).mem_iff

theorem sorted_sortStrings (l : List String) : (sortStrings l).Sorted (· ≤ ·) :=
  List.sorted_insertionSort _ l

/-- The required list of an assembled object node, exactly as the source
computes it: keys of the children whose sample count equals the parent
count, sorted. -/
theorem ToSchema_required (n : SchemaNode) (hpre : n.predefinedType = none)
    (hobj : n.getPrimaryType = "object") :
    n.ToSchema.required = sortStrings ((n.objectProperties.filter
      (fun q => q.2.sampleCount == n.sampleCount)).map Prod.fst) := by
  cases n with
  | mk d a p =>
      simp only [SchemaNode.predefinedType, SchemaNode.data] at hpre
      simp only [SchemaNode.getPrimaryType, SchemaNode.observedTypes, SchemaNode.data] at hobj
      by_cases hp : p.length > 0
      · simp [SchemaNode.ToSchema, hpre, hobj, hp, SchemaNode.objectProperties,
          SchemaNode.sampleCount, SchemaNode.data]
      · have hnil : p = [] := List.length_eq_zero.mp (by omega)
        subst hnil
        simp [SchemaNode.ToSchema, hpre, hobj, SchemaNode.objectProperties,
          SchemaNode.sampleCount, SchemaNode.data, sortStrings]

/-- The const field of an assembled node without predefined override: the
candidate value exactly when it is set and not disqualified. -/
theorem ToSchema_const (n : SchemaNode) (hpre : n.predefinedType = none) :
    n.ToSchema.const = if n.constSet && !n.constDiffer then n.constValue else none := by
  cases n with
  | mk d a p =>
      simp only [SchemaNode.predefinedType, SchemaNode.data] at hpre
      simp only [SchemaNode.ToSchema, hpre, SchemaNode.constSet, SchemaNode.constDiffer,
        SchemaNode.constValue, SchemaNode.data]
      split_ifs <;> simp

theorem predefinedType_observeList (n : SchemaNode) (vs : List GoValue) (e : Bool)
    (f : List CustomFormat) :
    (observeList n vs e f).predefinedType = n.predefinedType := by
  induction vs generalizing n with
  | nil => rfl
  | cons v rest ih => simp only [observeList, ih, ObserveValue_predefinedType]

theorem sampleCount_observeList (n : SchemaNode) (vs : List GoValue) (e : Bool)
    (f : List CustomFormat) :
    (observeList n vs e f).sampleCount = n.sampleCount + vs.length := by
  induction vs generalizing n with
  | nil => rfl
  | cons v rest ih =>
      simp only [observeList, ih, ObserveValue_sampleCount, List.length_cons]
      omega

theorem Inv_observeList_of (n : SchemaNode) (vs : List GoValue) (e : Bool)
    (f : List CustomFormat) (hwf : ∀ v ∈ vs, GoValue.WF v = true) (hn : Inv n) :
    Inv (observeList n vs e f) := by
  induction vs generalizing n with
  | nil => exact hn
  | cons v rest ih =>
      exact ih _ (fun w hw => hwf w (List.mem_cons_of_mem _ hw))
        (Inv_ObserveValue e f v n (hwf v (List.mem_cons_self _ _)) hn)

/-! ## Go equality on primitive-classified values -/

theorem goEq_iff_eq (v w : GoValue) (h : isConstTag (getPrimitiveType v) = true) :
    (goEq v w = true) ↔ v = w := by
  cases v <;> cases w <;> simp_all [goEq, isConstTag, getPrimitiveType]

theorem primObs_cons (v : GoValue) (vs : List GoValue) :
    primObs (v :: vs) =
      if isConstTag (getPrimitiveType v) then v :: primObs vs else primObs vs := by
  simp [primObs, List.filter_cons]

theorem primObs_append (vs ws : List GoValue) :
    primObs (vs ++ ws) = primObs vs ++ primObs ws := by
  simp [primObs, List.filter_append]

theorem mem_primObs_tag (vs : List GoValue) (w : GoValue) (h : w ∈ primObs vs) :
    isConstTag (getPrimitiveType w) = true := by
  simp only [primObs, List.mem_filter] at h
  exact h.2

/-! ## The const fold -/

theorem constStep_not_tag (v : GoValue) (st : ConstState)
    (h : isConstTag (getPrimitiveType v) = false) : constStep v st = st := by
  simp [constStep, h]

theorem constStep_differ (v : GoValue) (st : ConstState) (h : st.differ = true) :
    constStep v st = st := by
  simp [constStep, h]

theorem constFold_differ (vs : List GoValue) (st : ConstState) (h : st.differ = true) :
    vs.foldl (fun st v => constStep v st) st = st := by
  induction vs with
  | nil => rfl
  | cons v rest ih =>
      rw [List.foldl_cons, constStep_differ v st h]
      exact ih

theorem constStep_candidate_eq (v c : GoValue) (ht : isConstTag (getPrimitiveType v) = true)
    (he : goEq c v = true) :
    constStep v ⟨true, false, some c⟩ = ⟨true, false, some c⟩ := by
  simp [constStep, ht, he]

theorem constStep_candidate_ne (v c : GoValue) (ht : isConstTag (getPrimitiveType v) = true)
    (he : goEq c v = false) :
    constStep v ⟨true, false, some c⟩ = ⟨true, true, none⟩ := by
  simp [constStep, ht, he]

theorem constStep_init (v : GoValue) (ht : isConstTag (getPrimitiveType v) = true) :
    constStep v ⟨false, false, none⟩ = ⟨true, false, some v⟩ := by
  simp [constStep, ht]

theorem constFold_candidate (vs : List GoValue) (c : GoValue)
    (h : ∀ w ∈ primObs vs, goEq c w = true) :
    vs.foldl (fun st v => constStep v st) ⟨true, false, some c⟩ = ⟨true, false, some c⟩ := by
  induction vs with
  | nil => rfl
  | cons v rest ih =>
      by_cases ht : isConstTag (getPrimitiveType v) = true
      · have hv : goEq c v = true := h v (by rw [primObs_cons, if_pos ht]; exact List.mem_cons_self _ _)
        rw [List.foldl_cons, constStep_candidate_eq v c ht hv]
        exact ih (fun w hw => h w (by rw [primObs_cons, if_pos ht]; exact List.mem_cons_of_mem _ hw))
      · have htf : isConstTag (getPrimitiveType v) = false := by
          revert ht; cases isConstTag (getPrimitiveType v) <;> simp
        rw [List.foldl_cons, constStep_not_tag v _ htf]
        exact ih (fun w hw => h w (by rw [primObs_cons, if_neg (by simp [htf])]; exact hw))

theorem constFold_candidate_differ (vs : List GoValue) (c : GoValue)
    (h : ∃ w ∈ primObs vs, goEq c w = false) :
    (vs.foldl (fun st v => constStep v st) ⟨true, false, some c⟩).differ = true := by
  induction vs with
  | nil => simp [primObs] at h
  | cons v rest ih =>
      rw [List.foldl_cons]
      by_cases ht : isConstTag (getPrimitiveType v) = true
      · by_cases hv : goEq c v = true
        · rw [constStep_candidate_eq v c ht hv]
          apply ih
          obtain ⟨w, hw, hwf⟩ := h
          rw [primObs_cons, if_pos ht] at hw
          rcases List.mem_cons.mp hw with rfl | hw2
          · rw [hv] at hwf; cases hwf
          · exact ⟨w, hw2, hwf⟩
        · have hvf : goEq c v = false := by revert hv; cases goEq c v <;> simp
          rw [constStep_candidate_ne v c ht hvf]
          rw [constFold_differ rest _ rfl]
      · have htf : isConstTag (getPrimitiveType v) = false := by
          revert ht; cases isConstTag (getPrimitiveType v) <;> simp
        rw [constStep_not_tag v _ htf]
        apply ih
        obtain ⟨w, hw, hwf⟩ := h
        rw [primObs_cons, if_neg (by simp [htf])] at hw
        exact ⟨w, hw, hwf⟩

theorem constFold_main (vs : List GoValue) :
    (primObs vs = [] → vs.foldl (fun st v => constStep v st) ⟨false, false, none⟩
        = ⟨false, false, none⟩)
    ∧ ∀ c rest, primObs vs = c :: rest →
        ((∀ w ∈ rest, goEq c w = true) →
          vs.foldl (fun st v => constStep v st) ⟨false, false, none⟩ = ⟨true, false, some c⟩)
        ∧ ((∃ w ∈ rest, goEq c w = false) →
          (vs.foldl (fun st v => constStep v st) ⟨false, false, none⟩).differ = true) := by
  induction vs with
  | nil =>
      refine ⟨fun _ => rfl, fun c rest h => ?_⟩
      simp [primObs] at h
  | cons v vs' ih =>
      by_cases ht : isConstTag (getPrimitiveType v) = true
      · constructor
        · intro h
          rw [primObs_cons, if_pos ht] at h
          cases h
        · intro c rest h
          rw [primObs_cons, if_pos ht] at h
          injection h with h1 h2
          subst h1; subst h2
          constructor
          · intro hall
            rw [List.foldl_cons, constStep_init v ht]
            exact constFold_candidate vs' v hall
          · intro hex
            rw [List.foldl_cons, constStep_init v ht]
            exact constFold_candidate_differ vs' v hex
      · have htf : isConstTag (getPrimitiveType v) = false := by
          revert ht; cases isConstTag (getPrimitiveType v) <;> simp
        constructor
        · intro h
          rw [primObs_cons, if_neg (by simp [htf])] at h
          rw [List.foldl_cons, constStep_not_tag v _ htf]
          exact ih.1 h
        · intro c rest h
          rw [primObs_cons, if_neg (by simp [htf])] at h
          rw [List.foldl_cons, constStep_not_tag v _ htf]
          exact ih.2 c rest h

/-- The emitted const of a node grown from scratch, against the observation
sequence: present with value `c` exactly when the primitive-classified
observations are non-empty and all equal to `c`. -/
theorem const_some_iff (e : Bool) (f : List CustomFormat) (vs : List GoValue) (c : GoValue) :
    (observeList NewSchemaNode vs e f).ToSchema.const = some c ↔
      c ∈ primObs vs ∧ ∀ w ∈ primObs vs, w = c := by
  have hpre : (observeList NewSchemaNode vs e f).predefinedType = none :=
    predefinedType_observeList NewSchemaNode vs e f
  have hstate : (observeList NewSchemaNode vs e f).constState =
      vs.foldl (fun st v => constStep v st) ⟨false, false, none⟩ :=
    constState_observeList NewSchemaNode vs e f
  rw [ToSchema_const _ hpre]
  have hset : (observeList NewSchemaNode vs e f).constSet =
      (vs.foldl (fun st v => constStep v st) ⟨false, false, none⟩).set :=
    congrArg ConstState.set hstate
  have hdiffer : (observeList NewSchemaNode vs e f).constDiffer =
      (vs.foldl (fun st v => constStep v st) ⟨false, false, none⟩).differ :=
    congrArg ConstState.differ hstate
  have hvalue : (observeList NewSchemaNode vs e f).constValue =
      (vs.foldl (fun st v => constStep v st) ⟨false, false, none⟩).value :=
    congrArg ConstState.value hstate
  rw [hset, hdiffer, hvalue]
  constructor
  · intro h
    rcases heq : primObs vs with _ | ⟨c', rest⟩
    · rw [(constFold_main vs).1 heq] at h
      simp at h
    · have hc'mem : c' ∈ primObs vs := by rw [heq]; exact List.mem_cons_self _ _
      by_cases hall : ∀ w ∈ rest, goEq c' w = true
      · rw [((constFold_main vs).2 c' rest heq).1 hall] at h
        simp at h
        subst h
        refine ⟨List.mem_cons_self _ _, fun w hw => ?_⟩
        rcases List.mem_cons.mp hw with rfl | hw2
        · rfl
        · exact ((goEq_iff_eq c' w (mem_primObs_tag vs c' hc'mem)).mp (hall w hw2)).symm
      · have hex : ∃ w ∈ rest, goEq c' w = false := by
          push_neg at hall
          obtain ⟨w, hw, hwne⟩ := hall
          exact ⟨w, hw, by revert hwne; cases goEq c' w <;> simp⟩
        have := ((constFold_main vs).2 c' rest heq).2 hex
        rw [this] at h
        simp at h
  · rintro ⟨hmem, hall⟩
    rcases heq : primObs vs with _ | ⟨c', rest⟩
    · rw [heq] at hmem; cases hmem
    · have hc'mem : c' ∈ primObs vs := by rw [heq]; exact List.mem_cons_self _ _
      have hc' : c' = c := hall c' hc'mem
      subst hc'
      have hallrest : ∀ w ∈ rest, goEq c' w = true := by
        intro w hw
        have hwmem : w ∈ primObs vs := by rw [heq]; exact List.mem_cons_of_mem _ hw
        rw [goEq_iff_eq c' w (mem_primObs_tag vs c' hc'mem)]
        exact (hall w hwmem).symm
      rw [((constFold_main vs).2 c' rest heq).1 hallrest]
      simp

/-! ## Claim C2 -/

/-- Claim C2, counterexample: one sample that is an array of two booleans
leaves the root at sample count 1 while the merged array-item child is
observed once per element, reaching sample count 2 — the claimed
`child.sample_count <= parent.sample_count` invariant fails on the
`array_item` edge. -/
theorem C2_counterexample :
    (NewSchemaNode.ObserveValue (.vArr [.vBool true, .vBool true]) false []).sampleCount = 1
    ∧ (NewSchemaNode.ObserveValue (.vArr [.vBool true, .vBool true]) false
        []).arrayItemNode.map SchemaNode.sampleCount = some 2 :=
  ⟨rfl, rfl⟩

/-- Claim C2, amended: along `objectProperties` edges the invariant does
hold at every point of every well-formed observation sequence, everywhere in
the tree (also inside the array-item subtree); only the `array_item` edge
itself can exceed the parent, since it is observed once per array element. -/
theorem C2_object_edge_invariant (e : Bool) (f : List CustomFormat) (vs : List GoValue)
    (hwf : ∀ v ∈ vs, GoValue.WF v = true) :
    Inv (observeList NewSchemaNode vs e f) :=
  Inv_observeList_of NewSchemaNode vs e f hwf Inv_fresh

theorem C2_witness :
    Inv (observeList NewSchemaNode [.vObj [("a", .vStr "x")], .vObj [], .vArr [.vBool true]]
      false []) :=
  C2_object_edge_invariant false [] _ (by
    intro v hv
    rcases List.mem_cons.mp hv with rfl | hv2
    · rfl
    rcases List.mem_cons.mp hv2 with rfl | hv3
    · rfl
    rcases List.mem_cons.mp hv3 with rfl | hv4
    · rfl
    cases hv4)

/-! ## Claim C4 -/

/-- Claim C4, counterexample: the field observes the string "a" and then an
object — two non-null, non-identical observations — yet `const` is still
emitted with value "a", because complex-typed observations are skipped by
const tracking rather than disqualifying it. -/
theorem C4_counterexample :
    (observeList NewSchemaNode [.vStr "a", .vObj []] false []).ToSchema.const
        = some (.vStr "a")
    ∧ GoValue.vStr "a" ≠ GoValue.vObj []
    ∧ (GoValue.vStr "a").isNull = false
    ∧ (GoValue.vObj []).isNull = false := by
  refine ⟨rfl, ?_, rfl, rfl⟩
  intro h
  cases h

/-- Claim C4, amended: `const` is present with value c iff the observations
classified as string/integer/number/boolean are non-empty and all identical
to c (null, array and object observations neither establish nor disturb it);
one differing primitive value removes `const` permanently, for every later
extension of the sequence. -/
theorem C4_const_law (e : Bool) (f : List CustomFormat) (vs : List GoValue) :
    (∀ c : GoValue, (observeList NewSchemaNode vs e f).ToSchema.const = some c ↔
      c ∈ primObs vs ∧ ∀ w ∈ primObs vs, w = c)
    ∧ ∀ w1 w2, w1 ∈ primObs vs → w2 ∈ primObs vs → w1 ≠ w2 →
        ∀ ws, (observeList NewSchemaNode (vs ++ ws) e f).ToSchema.const = none := by
  refine ⟨fun c => const_some_iff e f vs c, ?_⟩
  intro w1 w2 h1 h2 hne ws
  cases hcc : (observeList NewSchemaNode (vs ++ ws) e f).ToSchema.const with
  | none => rfl
  | some c =>
      have hiff := (const_some_iff e f (vs ++ ws) c).mp hcc
      have hw1 : w1 = c := hiff.2 w1 (by rw [primObs_append]; exact List.mem_append_left _ h1)
      have hw2 : w2 = c := hiff.2 w2 (by rw [primObs_append]; exact List.mem_append_left _ h2)
      exact absurd (hw1.trans hw2.symm) hne

theorem C4_witness :
    (observeList NewSchemaNode [.vStr "a", .vNull, .vStr "a"] false []).ToSchema.const
      = some (.vStr "a") := by
  have hp : primObs [.vStr "a", .vNull, .vStr "a"] = [.vStr "a", .vStr "a"] := rfl
  refine ((C4_const_law false [] [.vStr "a", .vNull, .vStr "a"]).1 _).mpr ⟨?_, ?_⟩
  · rw [hp]; exact List.mem_cons_self _ _
  · intro w hw
    rw [hp] at hw
    rcases List.mem_cons.mp hw with rfl | hw2
    · rfl
    rcases List.mem_cons.mp hw2 with rfl | hw3
    · rfl
    cases hw3

/-! ## Claim C6 -/

/-- Claim C6: the source computes the primary type by a first-strict-max
scan over the Go map iteration order, so on tied counts the winner depends
on that arbitrary order.  The two samples 1 and "a" give the tied counts
integer:1, string:1; the two possible iteration orders (permutations of the
same map content) yield different primary types, and one of them is not the
lexicographically smallest tag — the deterministic lexicographic tie-break
the claim (and spec section 9) demands is not what the code does. -/
theorem C6_tie_break_order_dependent :
    (observeList NewSchemaNode [.vFloat 1, .vStr "a"] false []).observedTypes
        = [("integer", 1), ("string", 1)]
    ∧ getPrimaryTypeOn [("integer", 1), ("string", 1)] = "integer"
    ∧ getPrimaryTypeOn [("string", 1), ("integer", 1)] = "string"
    ∧ List.Perm [("integer", 1), ("string", 1)] [("string", 1), ("integer", 1)]
    ∧ ¬("string" ≤ "integer") := by
  refine ⟨rfl, rfl, rfl, List.Perm.swap _ _ _, ?_⟩
  rw [String.le_iff_toList_le]
  decide

/-! ## Claim C8 -/

/-- Claim C8, counterexample: on a fresh generator with zero ingested
samples, `GetCurrentSchema` does not fail (it has no error result at all):
it builds the schema of the empty root and, as a side effect, fills the
previously empty cache. -/
theorem C8_counterexample :
    (mkGenerator []).GetCurrentSchema.1 = (mkGenerator []).buildCurrentSchema
    ∧ (mkGenerator []).currentSchema = none
    ∧ (mkGenerator []).GetCurrentSchema.2.currentSchema
        = some ((mkGenerator []).buildCurrentSchema) :=
  ⟨rfl, rfl, rfl⟩

/-- Claim C8, amended: `Generate` fails with the no-samples error and no
side effect when zero samples were ingested; `GetCurrentSchema` never fails:
it returns the cached schema, building and caching it (a side effect) when
the cache was empty, regardless of the sample count. -/
theorem C8_read_guards (g : Generator) :
    (g.sampleCount = 0 → g.Generate = (.error "no samples added", g))
    ∧ g.GetCurrentSchema.1 = g.currentSchema.getD g.buildCurrentSchema
    ∧ g.GetCurrentSchema.2.currentSchema = some g.GetCurrentSchema.1 := by
  refine ⟨fun h => ?_, ?_, ?_⟩
  · simp [Generator.Generate, h]
  · cases hc : g.currentSchema <;> simp [Generator.GetCurrentSchema, hc]
  · cases hc : g.currentSchema <;> simp [Generator.GetCurrentSchema, hc]

theorem C8_witness :
    (mkGenerator []).Generate = (.error "no samples added", mkGenerator []) :=
  (C8_read_guards (mkGenerator [])).1 rfl

/-! ## Property-map lookup lemmas -/

theorem lookupProp_setProp_self (props : List (String × SchemaNode)) (k : String)
    (c : SchemaNode) : lookupProp (setProp props k c) k = some c := by
  induction props with
  | nil => simp [setProp, lookupProp]
  | cons q rest ih =>
      obtain ⟨k', c'⟩ := q
      by_cases hk : k' = k
      · simp [setProp, lookupProp, hk]
      · simp [setProp, lookupProp, hk, ih]

theorem lookupProp_setProp_ne (props : List (String × SchemaNode)) (k k' : String)
    (c : SchemaNode) (h : k' ≠ k) :
    lookupProp (setProp props k' c) k = lookupProp props k := by
  induction props with
  | nil => simp [setProp, lookupProp, h]
  | cons q rest ih =>
      obtain ⟨k'', c''⟩ := q
      by_cases hk : k'' = k'
      · subst hk
        simp [setProp, lookupProp, h]
      · simp only [setProp, if_neg hk]
        by_cases hk2 : k'' = k
        · simp [lookupProp, hk2]
        · simp [lookupProp, hk2, ih]

theorem observeFields_lookup_isSome (e : Bool) (f : List CustomFormat)
    (fields : List (String × GoValue)) (props : List (String × SchemaNode)) (k : String)
    (h : (lookupProp props k).isSome = true) :
    (lookupProp (observeFields props fields e f) k).isSome = true := by
  induction fields generalizing props with
  | nil => exact h
  | cons q rest ih =>
      obtain ⟨k', v⟩ := q
      apply ih
      by_cases hk : k' = k
      · subst hk; rw [lookupProp_setProp_self]; rfl
      · rw [lookupProp_setProp_ne _ _ _ _ hk]; exact h

theorem observeFields_lookup_not_mem (e : Bool) (f : List CustomFormat)
    (fields : List (String × GoValue)) (props : List (String × SchemaNode)) (k : String)
    (h : k ∉ fields.map Prod.fst) :
    lookupProp (observeFields props fields e f) k = lookupProp props k := by
  induction fields generalizing props with
  | nil => rfl
  | cons q rest ih =>
      obtain ⟨k', v⟩ := q
      simp only [List.map_cons, List.mem_cons] at h
      push_neg at h
      simp only [observeFields]
      rw [ih _ h.2, lookupProp_setProp_ne _ _ _ _ (fun hh => h.1 hh.symm)]

theorem map_fst_toSchemaProps (props : List (String × SchemaNode)) :
    (toSchemaProps props).map Prod.fst = props.map Prod.fst := by
  induction props with
  | nil => rfl
  | cons q rest ih =>
      obtain ⟨k, c⟩ := q
      simp [toSchemaProps, ih]

/-- The properties of an assembled object node are its children, assembled,
keys unchanged. -/
theorem ToSchema_properties (n : SchemaNode) (hpre : n.predefinedType = none)
    (hobj : n.getPrimaryType = "object") :
    n.ToSchema.properties = toSchemaProps n.objectProperties := by
  cases n with
  | mk d a p =>
      simp only [SchemaNode.predefinedType, SchemaNode.data] at hpre
      simp only [SchemaNode.getPrimaryType, SchemaNode.observedTypes, SchemaNode.data] at hobj
      by_cases hp : p.length > 0
      · simp [SchemaNode.ToSchema, hpre, hobj, hp, SchemaNode.objectProperties]
      · have hnil : p = [] := List.length_eq_zero.mp (by omega)
        subst hnil
        simp [SchemaNode.ToSchema, hpre, hobj, toSchemaProps]

/-! ## Claim C1 -/

/-- Claim C1: for an assembled object node (no predefined override), a key
is in the required list iff its child was observed exactly as often as the
node itself, and the required list is sorted by key name. -/
theorem C1_required_iff_sorted (n : SchemaNode) (hpre : n.predefinedType = none)
    (hobj : n.getPrimaryType = "object") :
    (∀ k, k ∈ n.ToSchema.required ↔
      ∃ c, (k, c) ∈ n.objectProperties ∧ c.sampleCount = n.sampleCount)
    ∧ n.ToSchema.required.Sorted (· ≤ ·) := by
  rw [ToSchema_required n hpre hobj]
  refine ⟨fun k => ?_, sorted_sortStrings _⟩
  rw [mem_sortStrings]
  constructor
  · intro hk
    simp only [List.mem_map] at hk
    obtain ⟨q, hq, rfl⟩ := hk
    rw [List.mem_filter] at hq
    exact ⟨q.2, hq.1, by simpa using hq.2⟩
  · rintro ⟨c, hc, hcount⟩
    simp only [List.mem_map]
    exact ⟨(k, c), List.mem_filter.mpr ⟨hc, by simpa using hcount⟩, rfl⟩

theorem C1_witness :
    "a" ∈ (NewSchemaNode.ObserveValue (.vObj [("a", .vStr "x")]) false []).ToSchema.required
    ∧ (NewSchemaNode.ObserveValue (.vObj [("a", .vStr "x")])
        false []).ToSchema.required.Sorted (· ≤ ·) :=
  ⟨((C1_required_iff_sorted
        (NewSchemaNode.ObserveValue (.vObj [("a", .vStr "x")]) false []) rfl rfl).1 "a").mpr
      ⟨NewSchemaNode.ObserveValue (.vStr "x") false [], List.mem_cons_self _ _, rfl⟩,
    (C1_required_iff_sorted
        (NewSchemaNode.ObserveValue (.vObj [("a", .vStr "x")]) false []) rfl rfl).2⟩

/-! ## Claim C5 -/

/-- Claim C5, counterexample: observing one object whose only key "a" is
null still creates the child node for "a", and "a" appears in the assembled
properties — the claim said no child is created and the key never appears. -/
theorem C5_counterexample :
    (lookupProp (NewSchemaNode.ObserveValue (.vObj [("a", .vNull)]) false
        []).objectProperties "a").isSome = true
    ∧ (NewSchemaNode.ObserveValue (.vObj [("a", .vNull)]) false
        []).ToSchema.properties.map Prod.fst = ["a"] :=
  ⟨rfl, rfl⟩

/-- Claim C5, amended: the object branch creates a child for EVERY key of
the observed object, null-valued or not; only non-null values are
recursively observed, so an always-null key keeps a freshly created child
(sample count 0) and does appear in the assembled properties. -/
theorem C5_null_keys_still_create_children (e : Bool) (f : List CustomFormat) :
    (∀ props fields k, k ∈ fields.map Prod.fst →
      (lookupProp (observeFields props fields e f) k).isSome = true)
    ∧ (∀ props fields k, lookupProp props k = none → (k, GoValue.vNull) ∈ fields →
        (fields.map Prod.fst).Nodup →
        lookupProp (observeFields props fields e f) k = some NewSchemaNode)
    ∧ (∀ n : SchemaNode, n.predefinedType = none → n.getPrimaryType = "object" →
        n.ToSchema.properties.map Prod.fst = n.objectProperties.map Prod.fst) := by
  refine ⟨?_, ?_, ?_⟩
  · intro props fields
    induction fields generalizing props with
    | nil => intro k hk; cases hk
    | cons q rest ih =>
        obtain ⟨k', v⟩ := q
        intro k hk
        simp only [List.map_cons, List.mem_cons] at hk
        simp only [observeFields]
        rcases hk with rfl | hk2
        · apply observeFields_lookup_isSome
          rw [lookupProp_setProp_self]
          rfl
        · exact ih _ k hk2
  · intro props fields
    induction fields generalizing props with
    | nil => intro k _ hmem; cases hmem
    | cons q rest ih =>
        obtain ⟨k', v⟩ := q
        intro k hnone hmem hnd
        simp only [List.map_cons, List.nodup_cons] at hnd
        simp only [observeFields]
        by_cases hk : k' = k
        · subst hk
          have hv : v = .vNull := by
            rcases List.mem_cons.mp hmem with heq | hmem2
            · exact ((Prod.mk.injEq _ _ _ _).mp heq.symm).2
            · exact absurd (List.mem_map.mpr ⟨_, hmem2, rfl⟩) hnd.1
          subst hv
          rw [hnone]
          simp [GoValue.isNull, observeFields_lookup_not_mem _ _ _ _ _ hnd.1,
            lookupProp_setProp_self]
        · have hmem2 : (k, GoValue.vNull) ∈ rest := by
            rcases List.mem_cons.mp hmem with heq | hmem2
            · exact absurd ((Prod.mk.injEq _ _ _ _).mp heq.symm).1 hk
            · exact hmem2
          refine ih _ k ?_ hmem2 hnd.2
          rw [lookupProp_setProp_ne _ _ _ _ hk]
          exact hnone
  · intro n hpre hobj
    rw [ToSchema_properties n hpre hobj, map_fst_toSchemaProps]

theorem C5_witness :
    lookupProp (observeFields [] [("a", GoValue.vNull)] false []) "a" = some NewSchemaNode :=
  (C5_null_keys_still_create_children false []).2.1 [] [("a", .vNull)] "a" rfl
    (List.mem_cons_self _ _) (by simp)

/-! ## String-only observation sequences -/

theorem observedTypes_observeList (n : SchemaNode) (vs : List GoValue) (e : Bool)
    (f : List CustomFormat) :
    (observeList n vs e f).observedTypes
      = vs.foldl (fun m v => bumpCount m (getPrimitiveType v)) n.observedTypes := by
  induction vs generalizing n with
  | nil => rfl
  | cons v rest ih =>
      simp only [observeList, List.foldl_cons, ih, ObserveValue_observedTypes]

theorem bump_string_fold (ss : List String) (k : Nat) :
    (ss.map GoValue.vStr).foldl (fun m v => bumpCount m (getPrimitiveType v))
      [("string", k)] = [("string", k + ss.length)] := by
  induction ss generalizing k with
  | nil => rfl
  | cons s rest ih =>
      simp only [List.map_cons, List.foldl_cons]
      rw [show bumpCount [("string", k)] (getPrimitiveType (GoValue.vStr s))
        = [("string", k + 1)] from rfl]
      rw [ih (k + 1)]
      simp only [List.length_cons]
      have harith : k + 1 + rest.length = k + (rest.length + 1) := by omega
      rw [harith]

theorem observedTypes_strings (s0 : String) (ss : List String) (e : Bool)
    (f : List CustomFormat) :
    (observeList NewSchemaNode ((s0 :: ss).map .vStr) e f).observedTypes
      = [("string", 1 + ss.length)] := by
  rw [observedTypes_observeList]
  simp only [List.map_cons, List.foldl_cons]
  show (ss.map GoValue.vStr).foldl _ (bumpCount [] "string") = _
  rw [show bumpCount ([] : List (String × Nat)) "string" = [("string", 1)] from rfl]
  exact bump_string_fold ss 1

theorem getPrimaryTypeOn_single (t : String) (m : Nat) (h : 0 < m) :
    getPrimaryTypeOn [(t, m)] = t := by
  simp only [getPrimaryTypeOn, List.foldl_cons, List.foldl_nil]
  rw [if_pos h]

theorem stringCount_observe_strings (n : SchemaNode) (ss : List String) (e : Bool)
    (f : List CustomFormat) :
    (observeList n (ss.map .vStr) e f).stringCount = n.stringCount + ss.length := by
  induction ss generalizing n with
  | nil => rfl
  | cons s rest ih =>
      simp only [List.map_cons, observeList, ih, List.length_cons]
      simp only [ObserveValue_stringCount]
      omega

/-- The format field of an assembled string-primary node: the head of the
surviving candidate list, or empty (omitted) when no string was seen or no
candidate survives. -/
theorem ToSchema_format (n : SchemaNode) (hpre : n.predefinedType = none)
    (hstr : n.getPrimaryType = "string") :
    n.ToSchema.format =
      (if n.stringCount == 0 then ""
       else match n.candidateFormats with
        | some (fmt :: _) => fmt
        | _ => "") := by
  cases n with
  | mk d a p =>
      simp only [SchemaNode.predefinedType, SchemaNode.data] at hpre
      simp only [SchemaNode.getPrimaryType, SchemaNode.observedTypes, SchemaNode.data] at hstr
      simp [SchemaNode.ToSchema, hpre, hstr, SchemaNode.stringCount,
        SchemaNode.candidateFormats]

/-! ## Claim C3 -/

/-- Claim C3: the candidate list is seeded exactly once, from the full
detector set, on the first string (and immediately filtered by it); on every
later string the surviving candidates form a sublist of the previous ones
(so the list never grows and the survivor order is preserved); the
assembled schema of a node that observed only strings carries the name of
the first surviving candidate as its format, or no format (empty string)
when no candidate survives. -/
theorem C3_candidate_format_lifecycle (e : Bool) (f : List CustomFormat) :
    (∀ (n : SchemaNode) (s : String), n.candidateFormats = none →
      (n.ObserveValue (.vStr s) e f).candidateFormats
        = some ((f.filter (fun cf => cf.detector s)).map CustomFormat.name))
    ∧ (∀ (n : SchemaNode) (s : String) (cf : List String), n.candidateFormats = some cf →
        ∃ cf', (n.ObserveValue (.vStr s) e f).candidateFormats = some cf'
          ∧ cf'.Sublist cf ∧ cf'.length ≤ cf.length)
    ∧ (∀ (s0 : String) (ss : List String),
        (observeList NewSchemaNode ((s0 :: ss).map .vStr) e f).ToSchema.format =
          (match (observeList NewSchemaNode ((s0 :: ss).map .vStr) e f).candidateFormats with
            | some (fmt :: _) => fmt
            | _ => "")) := by
  refine ⟨fun n s h => candidateFormats_first_string n s e f h, ?_, ?_⟩
  · intro n s cf h
    refine ⟨_, (candidateFormats_next_string n s e f cf h).1, ?_, ?_⟩
    · exact ((List.filter_sublist _).map Prod.fst).trans
        (map_fst_zip_sublist cf n.candidateDetectors)
    · exact List.Sublist.length_le
        (((List.filter_sublist _).map Prod.fst).trans
          (map_fst_zip_sublist cf n.candidateDetectors))
  · intro s0 ss
    have hpre : (observeList NewSchemaNode ((s0 :: ss).map .vStr) e f).predefinedType = none :=
      predefinedType_observeList _ _ _ _
    have hstr : (observeList NewSchemaNode ((s0 :: ss).map .vStr) e f).getPrimaryType
        = "string" := by
      rw [SchemaNode.getPrimaryType, SchemaNode.observedTypes]
      rw [show (observeList NewSchemaNode ((s0 :: ss).map .vStr) e f).data.observedTypes
        = (observeList NewSchemaNode ((s0 :: ss).map .vStr) e f).observedTypes from rfl]
      rw [observedTypes_strings s0 ss e f]
      exact getPrimaryTypeOn_single "string" (1 + ss.length) (by omega)
    rw [ToSchema_format _ hpre hstr]
    have hsc : (observeList NewSchemaNode ((s0 :: ss).map .vStr) e f).stringCount
        = 1 + ss.length := by
      rw [stringCount_observe_strings NewSchemaNode (s0 :: ss) e f]
      show 0 + (ss.length + 1) = 1 + ss.length
      omega
    rw [hsc]
    rw [if_neg (by simp)]

theorem C3_witness :
    (NewSchemaNode.ObserveValue (.vStr "ab") false
        [⟨"f1", fun s => s.length == 1⟩, ⟨"f2", fun _ => true⟩]).candidateFormats
      = some ["f2"]
    ∧ (observeList NewSchemaNode (["ab"].map .vStr) false
        [⟨"f1", fun s => s.length == 1⟩, ⟨"f2", fun _ => true⟩]).ToSchema.format = "f2" := by
  constructor
  · rw [(C3_candidate_format_lifecycle false
      [⟨"f1", fun s => s.length == 1⟩, ⟨"f2", fun _ => true⟩]).1 NewSchemaNode "ab" rfl]
    rfl
  · rw [(C3_candidate_format_lifecycle false
      [⟨"f1", fun s => s.length == 1⟩, ⟨"f2", fun _ => true⟩]).2.2 "ab" []]
    rfl

/-! ## Claim C10 -/

theorem lookupCount_bumpCount (m : List (String × Nat)) (k : String) :
    lookupCount (bumpCount m k) k = lookupCount m k + 1 := by
  induction m with
  | nil => simp [bumpCount, lookupCount]
  | cons q rest ih =>
      obtain ⟨k', c⟩ := q
      by_cases hk : k' = k
      · simp [bumpCount, lookupCount, hk]
      · simp [bumpCount, lookupCount, hk, ih]

/-- Claim C10: a value of unknown dynamic type is classified "string": its
observation bumps the "string" type count and participates in const
tracking (it can set and disqualify the candidate like any primitive), but
the string-specific handling is skipped: stringCount and the candidate
format slices stay untouched. -/
theorem C10_unknown_type_string_fallback (e : Bool) (f : List CustomFormat) :
    (∀ x, getPrimitiveType (.vOther x) = "string")
    ∧ (∀ (n : SchemaNode) (x : String),
        lookupCount (n.ObserveValue (.vOther x) e f).observedTypes "string"
          = lookupCount n.observedTypes "string" + 1
        ∧ (n.ObserveValue (.vOther x) e f).stringCount = n.stringCount
        ∧ (n.ObserveValue (.vOther x) e f).candidateFormats = n.candidateFormats
        ∧ (n.ObserveValue (.vOther x) e f).candidateDetectors = n.candidateDetectors
        ∧ (n.ObserveValue (.vOther x) e f).constState = constStep (.vOther x) n.constState)
    ∧ (∀ x, ((mkGenerator f).AddParsedSample (.vOther x)).rootNode.ToSchema.const
        = some (.vOther x))
    ∧ (∀ x y, x ≠ y →
        (observeList NewSchemaNode [.vOther x, .vOther y] e f).ToSchema.const = none) := by
  refine ⟨fun _ => rfl, fun n x => ?_, fun x => ?_, fun x y hxy => ?_⟩
  · refine ⟨?_, ?_, ?_, ?_, ObserveValue_constState n _ e f⟩
    · rw [ObserveValue_observedTypes]
      exact lookupCount_bumpCount n.observedTypes "string"
    · rw [ObserveValue_stringCount]
    · exact ObserveValue_candidateFormats_ne n _ e f (fun s h => nomatch h)
    · exact ObserveValue_candidateDetectors_ne n _ e f (fun s h => nomatch h)
  · have hp : primObs [GoValue.vOther x] = [GoValue.vOther x] := rfl
    exact (const_some_iff false f [.vOther x] (.vOther x)).mpr
      ⟨by rw [hp]; exact List.mem_cons_self _ _,
       by intro w hw; rw [hp] at hw; rcases List.mem_cons.mp hw with rfl | h2
          · rfl
          · cases h2⟩
  · cases hcc : (observeList NewSchemaNode [.vOther x, .vOther y] e f).ToSchema.const with
    | none => rfl
    | some c =>
        exfalso
        have hiff := (const_some_iff e f [.vOther x, .vOther y] c).mp hcc
        have hp : primObs [GoValue.vOther x, GoValue.vOther y]
            = [GoValue.vOther x, GoValue.vOther y] := rfl
        have h1 : GoValue.vOther x = c := hiff.2 _ (by
          rw [hp]; exact List.mem_cons_self _ _)
        have h2 : GoValue.vOther y = c := hiff.2 _ (by
          rw [hp]; exact List.mem_cons_of_mem _ (List.mem_cons_self _ _))
        have h3 := h1.trans h2.symm
        injection h3 with h4
        exact hxy h4

theorem C10_witness :
    lookupCount (NewSchemaNode.ObserveValue (.vOther "int 5") false []).observedTypes "string"
        = 1
    ∧ ((mkGenerator []).AddParsedSample (.vOther "int 5")).rootNode.ToSchema.const
        = some (.vOther "int 5")
    ∧ (observeList NewSchemaNode [.vOther "int 5", .vOther "int 7"] false []).ToSchema.const
        = none :=
  ⟨((C10_unknown_type_string_fallback false []).2.1 NewSchemaNode "int 5").1,
   (C10_unknown_type_string_fallback false []).2.2.1 "int 5",
   (C10_unknown_type_string_fallback false []).2.2.2 "int 5" "int 7" (by simp)⟩

/-! ## Claim C7 -/

/-- Claim C7, amended: Load with a non-object root type fails before any
mutation (the generator is returned unchanged); Load that reaches a
malformed type field deeper in the document reports the error, but only
after resetting: the root is replaced by the partly loaded fresh tree and
the cache is cleared, while the sample counter keeps its old value — the
all-or-nothing guarantee does not hold on this path. -/
theorem C7_load_error_paths (g : Generator) (schema : Schema) :
    (isTypeObject schema.type = false →
      g.Load schema = (g, some "only object schemas can be loaded"))
    ∧ (∀ e', isTypeObject schema.type = true → (loadSchemaIntoNode schema 1).2 = some e' →
        g.Load schema
          = ({ g with
                rootNode := (loadSchemaIntoNode schema 1).1,
                currentSchema := none },
             some e')
        ∧ (g.Load schema).1.sampleCount = g.sampleCount) := by
  constructor
  · intro h
    simp [Generator.Load, h]
  · intro e' hobj herr
    have h1 : g.Load schema
        = ({ g with
              rootNode := (loadSchemaIntoNode schema 1).1,
              currentSchema := none },
           some e') := by
      simp only [Generator.Load, hobj, if_true]
      rcases hl : loadSchemaIntoNode schema 1 with ⟨root, err⟩
      rw [hl] at herr
      simp only at herr
      subst herr
      rfl
    exact ⟨h1, by rw [h1]⟩

/-- Claim C7, counterexample: a generator holding one ingested sample and a
freshly built cache is fed a Load document with root type "object" but a
property whose type field is the number 5.  Load reports the
malformed-type error, yet the tree has been replaced (the previously present
root property "a" is gone) and the cache has been cleared — the state was
mutated by the failing Load. -/
theorem C7_counterexample :
    ((((mkGenerator []).AddParsedSample (.vObj [("a", .vStr "x")])).GetCurrentSchema.2).Load
        (.mk "" (.vStr "object") [("a", .mk "" (.vFloat 5) [] none [] "" none none)]
          none [] "" none none)).2 = some "unsupported type format"
    ∧ (((mkGenerator []).AddParsedSample
        (.vObj [("a", .vStr "x")])).GetCurrentSchema.2).currentSchema.isSome = true
    ∧ ((((mkGenerator []).AddParsedSample (.vObj [("a", .vStr "x")])).GetCurrentSchema.2).Load
        (.mk "" (.vStr "object") [("a", .mk "" (.vFloat 5) [] none [] "" none none)]
          none [] "" none none)).1.currentSchema = none
    ∧ (((mkGenerator []).AddParsedSample
        (.vObj [("a", .vStr "x")])).GetCurrentSchema.2).rootNode.objectProperties.map
          Prod.fst = ["a"]
    ∧ ((((mkGenerator []).AddParsedSample (.vObj [("a", .vStr "x")])).GetCurrentSchema.2).Load
        (.mk "" (.vStr "object") [("a", .mk "" (.vFloat 5) [] none [] "" none none)]
          none [] "" none none)).1.rootNode.objectProperties.map Prod.fst = [] :=
  ⟨rfl, rfl, rfl, rfl, rfl⟩

theorem C7_witness :
    (mkGenerator []).Load (.mk "" (.vStr "array") [] none [] "" none none)
      = (mkGenerator [], some "only object schemas can be loaded") :=
  (C7_load_error_paths (mkGenerator [])
    (.mk "" (.vStr "array") [] none [] "" none none)).1 rfl

/-! ## Claim C9 -/

/-- Claim C9, amended: for a string leaf carrying a format, Load pre-seeds
the candidate list with the single loaded format name paired with an
always-true synthetic predicate; and because that predicate is always true,
the loaded format is never eliminated by ANY subsequently ingested string —
matching or not — so it survives every later observation, not only the
first one as the one-grace-round policy claims. -/
theorem C9_loaded_format_never_eliminated (e : Bool) (f : List CustomFormat) :
    (∀ (schema : Schema) (cnt : Nat), schema.type = .vStr "string" → schema.format ≠ "" →
      (loadSchemaIntoNode schema cnt).1.candidateFormats = some [schema.format]
      ∧ (loadSchemaIntoNode schema cnt).1.stringCount = cnt
      ∧ (loadSchemaIntoNode schema cnt).1.candidateDetectors.length = 1
      ∧ (∀ d ∈ (loadSchemaIntoNode schema cnt).1.candidateDetectors, ∀ s, d s = true)
      ∧ (loadSchemaIntoNode schema cnt).2 = none)
    ∧ (∀ (n : SchemaNode) (cf : List String) (ss : List String),
        n.candidateFormats = some cf →
        cf.length = n.candidateDetectors.length →
        (∀ d ∈ n.candidateDetectors, ∀ s, d s = true) →
        (observeList n (ss.map .vStr) e f).candidateFormats = some cf) := by
  constructor
  · intro schema cnt htype hfmt
    cases schema with
    | mk sf t p i r fo c eo =>
        simp only [Schema.type] at htype
        simp only [Schema.format] at hfmt
        subst htype
        refine ⟨?_, ?_, ?_, ?_, ?_⟩ <;>
          simp [loadSchemaIntoNode, loadTypeStr, hfmt, SchemaNode.candidateFormats,
            SchemaNode.stringCount, SchemaNode.candidateDetectors, freshData]
  · intro n cf ss
    induction ss generalizing n cf with
    | nil => intro h _ _; exact h
    | cons s rest ih =>
        intro h hlen halways
        simp only [List.map_cons, observeList]
        have hnext := candidateFormats_next_string n s e f cf h
        have hfilter : (cf.zip n.candidateDetectors).filter (fun p => p.2 s)
            = cf.zip n.candidateDetectors := by
          apply List.filter_eq_self.mpr
          intro p hp
          obtain ⟨a, b⟩ := p
          exact halways b (List.of_mem_zip hp).2 s
        have hcf : (n.ObserveValue (.vStr s) e f).candidateFormats = some cf := by
          rw [hnext.1, hfilter, List.map_fst_zip _ _ (le_of_eq hlen)]
        have hcd : (n.ObserveValue (.vStr s) e f).candidateDetectors
            = n.candidateDetectors := by
          rw [hnext.2, hfilter, List.map_snd_zip _ _ (ge_of_eq hlen)]
        exact ih _ _ hcf (by rw [hcd]; exact hlen) (by rw [hcd]; exact halways)

/-- Claim C9, counterexample: with the single custom detector "myfmt"
(matching only "good"), a loaded object schema marks property "a" as a
string with format "myfmt".  The string "bad" genuinely does not match the
detector, and it is ingested twice after the Load — past the claimed single
grace round — yet the candidate list still holds "myfmt" and the assembled
schema still emits the format: the loaded format is never eliminated. -/
theorem C9_counterexample :
    (CustomFormat.mk "myfmt" (fun s => s == "good")).detector "bad" = false
    ∧ ((mkGenerator [⟨"myfmt", fun s => s == "good"⟩]).Load
        (.mk "" (.vStr "object")
          [("a", .mk "" (.vStr "string") [] none [] "myfmt" none none)]
          none ["a"] "" none none)).2 = none
    ∧ (lookupProp ((((mkGenerator [⟨"myfmt", fun s => s == "good"⟩]).Load
        (.mk "" (.vStr "object")
          [("a", .mk "" (.vStr "string") [] none [] "myfmt" none none)]
          none ["a"] "" none none)).1.AddParsedSample
          (.vObj [("a", .vStr "bad")])).AddParsedSample
          (.vObj [("a", .vStr "bad")])).rootNode.objectProperties "a").map
        SchemaNode.candidateFormats = some (some ["myfmt"])
    ∧ ((((mkGenerator [⟨"myfmt", fun s => s == "good"⟩]).Load
        (.mk "" (.vStr "object")
          [("a", .mk "" (.vStr "string") [] none [] "myfmt" none none)]
          none ["a"] "" none none)).1.AddParsedSample
          (.vObj [("a", .vStr "bad")])).AddParsedSample
          (.vObj [("a", .vStr "bad")])).rootNode.ToSchema.properties.map
        (fun q => (q.1, q.2.format)) = [("a", "myfmt")] :=
  ⟨rfl, rfl, rfl, rfl⟩

theorem C9_witness :
    (observeList
      (loadSchemaIntoNode (.mk "" (.vStr "string") [] none [] "fmt" none none) 1).1
      (["x", "y"].map .vStr) false []).candidateFormats = some ["fmt"] := by
  have h1 := (C9_loaded_format_never_eliminated false []).1
    (.mk "" (.vStr "string") [] none [] "fmt" none none) 1 rfl (by simp)
  exact (C9_loaded_format_never_eliminated false []).2 _ ["fmt"] ["x", "y"] h1.1
    (by rw [h1.2.2.1]; rfl) h1.2.2.2.1

end JsonSchemaInfer
